import Mathlib

/-!
Verification of the equations-of-motion derivation in
`src/code_SEGBOT/ae353_segbot-EoM.ipynb`.

The notebook is a linear SymPy script: it defines numeric constants, declares
symbolic generalized coordinates and control inputs, builds three matrices
`M`, `N`, `R`, and computes
`f = Matrix([[v*sin(phi)], [simplify(M.inv() * (N + R*[tau_l; tau_r]))]])`.

The embedding below is semantic: a SymPy expression in the declared symbols
denotes the real-valued function of those symbols obtained by evaluating it,
and two expressions are identified exactly when they denote the same function
(`sympy.simplify` is contracted to return an expression equal, as a function,
to its input, so it is the identity of this embedding).  Matrices of
expressions become `Matrix (Fin m) (Fin n) ℝ` valued functions of the symbol
values, and `M.inv()` becomes Mathlib's matrix inverse `⁻¹` (which agrees
with the mathematical inverse whenever the determinant is a unit).
-/

namespace Segbot

/-- The constants cell of the notebook.  Every numeric constant the cell binds
is a field (in the cell's order); the derived totals `m`, `ixx`, `iyy`, `izz`
are definitions below, exactly as the cell computes them.  Bundling the cell
as a structure lets a later theorem re-run the derivation with alternative
values of a constant. -/
structure Params where
  m_c : ℝ
  ixx_c : ℝ
  iyy_c : ℝ
  izz_c : ℝ
  m_w : ℝ
  iaa_w : ℝ
  itt_w : ℝ
  r_w : ℝ
  h : ℝ
  a : ℝ
  r_station : ℝ
  v_station : ℝ

/-- `m = m_c + 2*m_w`, the total mass of the system. -/
def Params.m (p : Params) : ℝ := p.m_c + 2 * p.m_w

/-- `ixx = ixx_c + 2*itt_w`, the total roll mass moment of inertia. -/
def Params.ixx (p : Params) : ℝ := p.ixx_c + 2 * p.itt_w

/-- `iyy = iyy_c`, the total pitch mass moment of inertia. -/
def Params.iyy (p : Params) : ℝ := p.iyy_c

/-- `izz = izz_c + 2*itt_w`, the total yaw mass moment of inertia. -/
def Params.izz (p : Params) : ℝ := p.izz_c + 2 * p.itt_w

/-- The numeric values the constants cell assigns, in field order:
`m_c = 12.0`, `ixx_c = 1.0`, `iyy_c = 0.8`, `izz_c = 0.52`, `m_w = 1.2`,
`iaa_w = 0.0634`, `itt_w = 0.0327`, `r_w = 0.325`, `h = 0.2`, `a = 0.35`,
`r_station = 20.0`, `v_station = -0.1`. -/
def segbot : Params :=
  ⟨12.0, 1.0, 0.8, 0.52, 1.2, 0.0634, 0.0327, 0.325, 0.2, 0.35, 20.0, -0.1⟩

/-- The constants cell re-run with alternative station parameters: every
numeric value as in `segbot` except that `r_station` and `v_station` are
rebound to the given values. -/
def stationAlt (r_station v_station : ℝ) : Params :=
  ⟨12.0, 1.0, 0.8, 0.52, 1.2, 0.0634, 0.0327, 0.325, 0.2, 0.35,
    r_station, v_station⟩

/-- The matrix `M` of the notebook (a symbolic 3×3 matrix in `theta`). -/
noncomputable def M (p : Params) (theta : ℝ) : Matrix (Fin 3) (Fin 3) ℝ :=
  !![p.m + 2 * p.iaa_w / p.r_w ^ 2, 0, p.m_c * p.h * Real.cos theta;
     0, (p.ixx + p.m_c * p.h ^ 2) * Real.sin theta ^ 2
        + p.izz * Real.cos theta ^ 2
        + (2 * p.iaa_w * p.a ^ 2 / p.r_w ^ 2) + 2 * p.m_w * p.a ^ 2, 0;
     p.m_c * p.h * Real.cos theta, 0, p.iyy * p.m_c * p.h ^ 2]

/-- The matrix `N` of the notebook (a symbolic 3×1 matrix in `theta`,
`phidot`, `thetadot`, `v`). -/
noncomputable def N (p : Params) (theta phidot thetadot v : ℝ) :
    Matrix (Fin 3) (Fin 1) ℝ :=
  !![p.m_c * p.h * (phidot ^ 2 + thetadot ^ 2) * Real.sin theta;
     -2 * (p.ixx - p.izz + p.m * p.h ^ 2) * Real.cos theta * Real.sin theta
        * phidot * thetadot - p.m_c * p.h * Real.sin theta * v * phidot;
     (p.ixx - p.izz + p.m_c * p.h ^ 2) * Real.cos theta * Real.sin theta
        * phidot ^ 2 + p.m_c * 9.81 * p.h * Real.sin theta]

/-- The input-mapping matrix `R` of the notebook (a constant 3×2 matrix). -/
noncomputable def R (p : Params) : Matrix (Fin 3) (Fin 2) ℝ :=
  !![1 / p.r_w, 1 / p.r_w;
     -p.a / p.r_w, p.a / p.r_w;
     -1, -1]

/-- `f_partial = simplify(M.inv() * (N + R * Matrix([[tau_l], [tau_r]])))`. -/
noncomputable def f_partial (p : Params) (theta phidot thetadot v tau_l tau_r : ℝ) :
    Matrix (Fin 3) (Fin 1) ℝ :=
  (M p theta)⁻¹ * (N p theta phidot thetadot v + R p * !![tau_l; tau_r])

/-- `f = simplify(Matrix([[v*sin(phi)], [f_partial]]))`: the 4×1 final
expression, the first row `v*sin(phi)` stacked over the three rows of
`f_partial`. -/
noncomputable def f (p : Params) (v phi phidot theta thetadot tau_l tau_r : ℝ) :
    Matrix (Fin 4) (Fin 1) ℝ :=
  let g := f_partial p theta phidot thetadot v tau_l tau_r
  !![v * Real.sin phi; g 0 0; g 1 0; g 2 0]

/-- Abbreviation for the `(0,0)` entry of `M` (used only in proofs). -/
noncomputable def entA (p : Params) : ℝ := p.m + 2 * p.iaa_w / p.r_w ^ 2

/-- Abbreviation for the off-diagonal `(0,2) = (2,0)` entry of `M`. -/
noncomputable def entB (p : Params) (theta : ℝ) : ℝ := p.m_c * p.h * Real.cos theta

/-- Abbreviation for the middle `(1,1)` entry of `M`. -/
noncomputable def entC (p : Params) (theta : ℝ) : ℝ :=
  (p.ixx + p.m_c * p.h ^ 2) * Real.sin theta ^ 2 + p.izz * Real.cos theta ^ 2
    + (2 * p.iaa_w * p.a ^ 2 / p.r_w ^ 2) + 2 * p.m_w * p.a ^ 2

/-- Abbreviation for the `(2,2)` entry of `M`. -/
noncomputable def entD (p : Params) : ℝ := p.iyy * p.m_c * p.h ^ 2

/-- Cramer-style solution of the linear system `M x = b` written out
entrywise (used only in proofs, to give `f_partial` a closed form). -/
noncomputable def solveVec (p : Params) (theta : ℝ) (b : Matrix (Fin 3) (Fin 1) ℝ) :
    Matrix (Fin 3) (Fin 1) ℝ :=
  !![(entD p * b 0 0 - entB p theta * b 2 0)
      / (entA p * entD p - entB p theta ^ 2);
     b 1 0 / entC p theta;
     (entA p * b 2 0 - entB p theta * b 0 0)
      / (entA p * entD p - entB p theta ^ 2)]

/-- The names of the six generalized-coordinate symbols, in the order the
symbol cell declares them. -/
def coordNames : List String := ["e_lat", "phi", "phidot", "v", "theta", "thetadot"]

/-- The names of the two control-input symbols, in declaration order. -/
def inputNames : List String := ["tau_l", "tau_r"]

/-- The symbol-declaration cell, one pair per line: the Python variable the
line binds, and the name string passed to `Symbol(...)` on that line. -/
def symbolDecls : List (String × String) :=
  [("e_lat", "e_lat"), ("phi", "phi"), ("phidot", "phidot"), ("v", "v"),
   ("theta", "theta"), ("thetadot", "thetadot"),
   ("tau_l", "tau_l"), ("tau_r", "tau_r")]

/-- The value of the final expression `f` under an assignment of real values
to symbol names.  The expression reads the symbols it contains; a symbol the
expression does not contain is simply never read. -/
noncomputable def fEval (σ : String → ℝ) : Matrix (Fin 4) (Fin 1) ℝ :=
  f segbot (σ "v") (σ "phi") (σ "phidot") (σ "theta") (σ "thetadot")
    (σ "tau_l") (σ "tau_r")

/-- A symbol name occurs free in the final expression `f` iff the value of
`f` depends on the value assigned to that name: some two assignments that
agree everywhere except at `s` give `f` different values. -/
def dependsOn (s : String) : Prop :=
  ∃ σ σ' : String → ℝ, (∀ x : String, x ≠ s → σ x = σ' x) ∧ fEval σ ≠ fEval σ'

/-- The whole derivation (the notebook's code cells after the import cell) as
a function of an ambient environment: anything an evaluation could in
principle read besides the program text — a clock, a random seed, shared
state.  The notebook's cells read none of these (they mention only the
declared constants and symbols), which this definition records: its body
does not use `world`. -/
noncomputable def derivation (_world : ℕ → ℝ) :
    (Params → ℝ → Matrix (Fin 3) (Fin 3) ℝ)
    × (Params → ℝ → ℝ → ℝ → ℝ → Matrix (Fin 3) (Fin 1) ℝ)
    × (Params → Matrix (Fin 3) (Fin 2) ℝ)
    × (Params → ℝ → ℝ → ℝ → ℝ → ℝ → ℝ → ℝ → Matrix (Fin 4) (Fin 1) ℝ) :=
  (M, N, R, f)

lemma M_eq (p : Params) (theta : ℝ) :
    M p theta = !![entA p, 0, entB p theta;
                   0, entC p theta, 0;
                   entB p theta, 0, entD p] := rfl

lemma det_M (p : Params) (theta : ℝ) :
    (M p theta).det = entC p theta * (entA p * entD p - entB p theta ^ 2) := by
  simp [M_eq, Matrix.det_fin_three]
  ring

lemma entC_segbot_pos (theta : ℝ) : 0 < entC segbot theta := by
  have hs := sq_nonneg (Real.sin theta)
  have hc := sq_nonneg (Real.cos theta)
  simp only [entC, segbot, Params.ixx, Params.izz]
  norm_num
  nlinarith [hs, hc]

lemma det2_segbot_pos (theta : ℝ) :
    0 < entA segbot * entD segbot - entB segbot theta ^ 2 := by
  have h := Real.cos_sq_le_one theta
  simp only [entA, entB, entD, segbot, Params.m, Params.iyy]
  norm_num
  nlinarith [h]

lemma det_M_segbot_pos (theta : ℝ) : 0 < (M segbot theta).det := by
  rw [det_M]
  exact mul_pos (entC_segbot_pos theta) (det2_segbot_pos theta)

lemma isUnit_det_M_segbot (theta : ℝ) : IsUnit (M segbot theta).det :=
  isUnit_iff_ne_zero.mpr (ne_of_gt (det_M_segbot_pos theta))

lemma M_mul_solveVec (p : Params) (theta : ℝ) (b : Matrix (Fin 3) (Fin 1) ℝ)
    (hC : entC p theta ≠ 0) (hD : entA p * entD p - entB p theta ^ 2 ≠ 0) :
    M p theta * solveVec p theta b = b := by
  ext i j
  fin_cases i <;> fin_cases j <;>
    simp [M_eq, solveVec, Matrix.mul_apply, Fin.sum_univ_three] <;>
    field_simp <;>
    ring

lemma f_partial_eq_solveVec (p : Params) (theta phidot thetadot v tau_l tau_r : ℝ)
    (hC : entC p theta ≠ 0) (hD : entA p * entD p - entB p theta ^ 2 ≠ 0) :
    f_partial p theta phidot thetadot v tau_l tau_r
      = solveVec p theta (N p theta phidot thetadot v + R p * !![tau_l; tau_r]) := by
  have hdet : IsUnit (M p theta).det := by
    rw [det_M]
    exact isUnit_iff_ne_zero.mpr (mul_ne_zero hC hD)
  have key := M_mul_solveVec p theta
    (N p theta phidot thetadot v + R p * !![tau_l; tau_r]) hC hD
  calc f_partial p theta phidot thetadot v tau_l tau_r
      = (M p theta)⁻¹
          * (M p theta * solveVec p theta
              (N p theta phidot thetadot v + R p * !![tau_l; tau_r])) := by
        rw [key]
        rfl
    _ = ((M p theta)⁻¹ * M p theta) * solveVec p theta
          (N p theta phidot thetadot v + R p * !![tau_l; tau_r]) := by
        rw [Matrix.mul_assoc]
    _ = solveVec p theta
          (N p theta phidot thetadot v + R p * !![tau_l; tau_r]) := by
        rw [Matrix.nonsing_inv_mul _ hdet, Matrix.one_mul]

lemma f_partial_segbot (theta phidot thetadot v tau_l tau_r : ℝ) :
    f_partial segbot theta phidot thetadot v tau_l tau_r
      = solveVec segbot theta
          (N segbot theta phidot thetadot v + R segbot * !![tau_l; tau_r]) :=
  f_partial_eq_solveVec segbot theta phidot thetadot v tau_l tau_r
    (ne_of_gt (entC_segbot_pos theta)) (ne_of_gt (det2_segbot_pos theta))

lemma f_apply_zero (p : Params) (v phi phidot theta thetadot tau_l tau_r : ℝ) :
    f p v phi phidot theta thetadot tau_l tau_r 0 0 = v * Real.sin phi := rfl

lemma f_apply_one (p : Params) (v phi phidot theta thetadot tau_l tau_r : ℝ) :
    f p v phi phidot theta thetadot tau_l tau_r 1 0
      = f_partial p theta phidot thetadot v tau_l tau_r 0 0 := rfl

lemma f_apply_two (p : Params) (v phi phidot theta thetadot tau_l tau_r : ℝ) :
    f p v phi phidot theta thetadot tau_l tau_r 2 0
      = f_partial p theta phidot thetadot v tau_l tau_r 1 0 := rfl

lemma f_apply_three (p : Params) (v phi phidot theta thetadot tau_l tau_r : ℝ) :
    f p v phi phidot theta thetadot tau_l tau_r 3 0
      = f_partial p theta phidot thetadot v tau_l tau_r 2 0 := rfl

lemma entA_segbot_pos : (0 : ℝ) < entA segbot := by
  norm_num [entA, segbot, Params.m]

lemma f_partial_upright (v : ℝ) : f_partial segbot 0 0 0 v 0 0 = 0 := by
  have hb : N segbot 0 0 0 v + R segbot * !![(0 : ℝ); 0] = 0 := by
    ext i j
    fin_cases i <;> fin_cases j <;>
      simp [N, R, Matrix.mul_apply, Fin.sum_univ_two,
        Matrix.vecHead, Matrix.vecTail]
  rw [ f_partial, hb, Matrix.mul_zero]

/-- C1: the final expression `f` is a 4×1 matrix; its first entry is
`v*sin(phi)`, and its last three entries `g` satisfy the symbolic identity
`M * g = N + R * [tau_l; tau_r]` identically in `theta`, `phidot`,
`thetadot`, `v`, `tau_l`, `tau_r`. -/
theorem f_solves_assembled_system (v phi phidot theta thetadot tau_l tau_r : ℝ) :
    f segbot v phi phidot theta thetadot tau_l tau_r 0 0 = v * Real.sin phi ∧
    M segbot theta
        * !![f segbot v phi phidot theta thetadot tau_l tau_r 1 0;
             f segbot v phi phidot theta thetadot tau_l tau_r 2 0;
             f segbot v phi phidot theta thetadot tau_l tau_r 3 0]
      = N segbot theta phidot thetadot v + R segbot * !![tau_l; tau_r] := by
  constructor
  · rfl
  · have hstack : !![f segbot v phi phidot theta thetadot tau_l tau_r 1 0;
          f segbot v phi phidot theta thetadot tau_l tau_r 2 0;
          f segbot v phi phidot theta thetadot tau_l tau_r 3 0]
        = f_partial segbot theta phidot thetadot v tau_l tau_r := by
      ext i j
      fin_cases i <;> fin_cases j <;> rfl
    rw [hstack, f_partial, ← Matrix.mul_assoc,
      Matrix.mul_nonsing_inv _ (isUnit_det_M_segbot theta), Matrix.one_mul]

/-- C3: the inversion `M.inv()` — the only failure point of the notebook —
is defined for every real `theta`: `det(M)` is nonzero, equivalently
`(m + 2*iaa_w/r_w**2)*(iyy*m_c*h**2) - (m_c*h*cos(theta))**2` never
vanishes, and the inverse really is an inverse, so the error branch of the
inversion is unreachable. -/
theorem inversion_always_defined (theta : ℝ) :
    (M segbot theta).det ≠ 0 ∧
    (segbot.m + 2 * segbot.iaa_w / segbot.r_w ^ 2)
        * (segbot.iyy * segbot.m_c * segbot.h ^ 2)
        - (segbot.m_c * segbot.h * Real.cos theta) ^ 2 ≠ 0 ∧
    M segbot theta * (M segbot theta)⁻¹ = 1 :=
  ⟨ne_of_gt (det_M_segbot_pos theta), ne_of_gt (det2_segbot_pos theta),
    Matrix.mul_nonsing_inv _ (isUnit_det_M_segbot theta)⟩

/-- C4: for every real `theta` the assembled mass matrix `M` is symmetric
(`M` equals its transpose), and `M[0,0] > 0`, `M[1,1] > 0`, `det(M) > 0`. -/
theorem M_symmetric_and_posdef (theta : ℝ) :
    (M segbot theta).transpose = M segbot theta ∧
    0 < M segbot theta 0 0 ∧ 0 < M segbot theta 1 1 ∧
    0 < (M segbot theta).det := by
  refine ⟨?_, ?_, ?_, det_M_segbot_pos theta⟩
  · ext i j
    fin_cases i <;> fin_cases j <;> rfl
  · have h : M segbot theta 0 0 = entA segbot := rfl
    rw [h]
    exact entA_segbot_pos
  · have h : M segbot theta 1 1 = entC segbot theta := rfl
    rw [h]
    exact entC_segbot_pos theta

/-- C6: substituting `theta = 0`, `phidot = 0`, `thetadot = 0`,
`tau_l = 0`, `tau_r = 0` into `f` gives first entry `v*sin(phi)` and last
three entries identically zero, for every `v` and `phi`: the upright rest
configuration with zero torques is an equilibrium of the acceleration
dynamics. -/
theorem upright_zero_torque_equilibrium (v phi : ℝ) :
    f segbot v phi 0 0 0 0 0 = !![v * Real.sin phi; 0; 0; 0] := by
  have hfp := f_partial_upright v
  ext i j
  fin_cases i <;> fin_cases j <;> simp [f, hfp]

set_option maxHeartbeats 1000000 in
/-- C5: every entry of `f` is an affine function of the torque pair
`(tau_l, tau_r)`; the first entry contains no torque; the second and fourth
entries depend on the torques only through the sum `tau_l + tau_r` (hence
are unchanged when `tau_l` and `tau_r` are swapped); the third entry depends
on the torques only through the difference `tau_r - tau_l`. -/
theorem f_affine_in_torques (v phi phidot theta thetadot : ℝ) :
    (∃ c₀ c₁ c₂ : Fin 4 → ℝ, ∀ (tau_l tau_r : ℝ) (i : Fin 4),
        f segbot v phi phidot theta thetadot tau_l tau_r i 0
          = c₀ i + c₁ i * tau_l + c₂ i * tau_r) ∧
    (∀ tau_l tau_r tau_l' tau_r' : ℝ,
        f segbot v phi phidot theta thetadot tau_l tau_r 0 0
          = f segbot v phi phidot theta thetadot tau_l' tau_r' 0 0) ∧
    (∀ tau_l tau_r tau_l' tau_r' : ℝ, tau_l + tau_r = tau_l' + tau_r' →
        f segbot v phi phidot theta thetadot tau_l tau_r 1 0
            = f segbot v phi phidot theta thetadot tau_l' tau_r' 1 0 ∧
        f segbot v phi phidot theta thetadot tau_l tau_r 3 0
            = f segbot v phi phidot theta thetadot tau_l' tau_r' 3 0) ∧
    (∀ tau_l tau_r : ℝ,
        f segbot v phi phidot theta thetadot tau_l tau_r 1 0
            = f segbot v phi phidot theta thetadot tau_r tau_l 1 0 ∧
        f segbot v phi phidot theta thetadot tau_l tau_r 3 0
            = f segbot v phi phidot theta thetadot tau_r tau_l 3 0) ∧
    (∀ tau_l tau_r tau_l' tau_r' : ℝ, tau_r - tau_l = tau_r' - tau_l' →
        f segbot v phi phidot theta thetadot tau_l tau_r 2 0
          = f segbot v phi phidot theta thetadot tau_l' tau_r' 2 0) := by
  refine ⟨⟨fun i => f segbot v phi phidot theta thetadot 0 0 i 0,
      fun i => f segbot v phi phidot theta thetadot 1 0 i 0
        - f segbot v phi phidot theta thetadot 0 0 i 0,
      fun i => f segbot v phi phidot theta thetadot 0 1 i 0
        - f segbot v phi phidot theta thetadot 0 0 i 0, ?_⟩, ?_, ?_, ?_, ?_⟩
  · intro tau_l tau_r i
    fin_cases i <;>
      simp [f_apply_zero, f_apply_one, f_apply_two, f_apply_three,
        f_partial_segbot, solveVec, R, Matrix.mul_apply, Fin.sum_univ_two,
        Matrix.vecHead, Matrix.vecTail] <;>
      ring
  · intro tau_l tau_r tau_l' tau_r'
    rw [f_apply_zero, f_apply_zero]
  · intro tau_l tau_r tau_l' tau_r' hsum
    have hl : tau_l' = tau_l + tau_r - tau_r' := by linarith
    subst hl
    constructor <;>
      simp [f_apply_one, f_apply_three, f_partial_segbot, solveVec, R,
        Matrix.mul_apply, Fin.sum_univ_two, Matrix.vecHead, Matrix.vecTail] <;>
      ring
  · intro tau_l tau_r
    constructor <;>
      simp [f_apply_one, f_apply_three, f_partial_segbot, solveVec, R,
        Matrix.mul_apply, Fin.sum_univ_two, Matrix.vecHead, Matrix.vecTail] <;>
      ring
  · intro tau_l tau_r tau_l' tau_r' hdiff
    have hl : tau_l' = tau_l - tau_r + tau_r' := by linarith
    subst hl
    simp [f_apply_two, f_partial_segbot, solveVec, R,
      Matrix.mul_apply, Fin.sum_univ_two, Matrix.vecHead, Matrix.vecTail]
    ring

lemma fEval_determined (σ σ' : String → ℝ)
    (hv : σ "v" = σ' "v") (hphi : σ "phi" = σ' "phi")
    (hphidot : σ "phidot" = σ' "phidot") (htheta : σ "theta" = σ' "theta")
    (hthetadot : σ "thetadot" = σ' "thetadot")
    (htl : σ "tau_l" = σ' "tau_l") (htr : σ "tau_r" = σ' "tau_r") :
    fEval σ = fEval σ' := by
  unfold fEval
  rw [hv, hphi, hphidot, htheta, hthetadot, htl, htr]

lemma f_rest3_zero : f segbot 0 0 0 0 0 0 0 3 0 = 0 := by
  rw [f_apply_three, f_partial_upright]
  simp

lemma f_pi2_entry1_zero : f segbot 0 0 0 (Real.pi / 2) 0 0 0 1 0 = 0 := by
  rw [f_apply_one, f_partial_segbot]
  simp [solveVec, N, R, Matrix.mul_apply, Fin.sum_univ_two, Matrix.vecHead,
    Matrix.vecTail, Real.sin_pi_div_two, Real.cos_pi_div_two, entB]

lemma f_tau_l_entry3 : f segbot 0 0 0 0 0 1 0 3 0 ≠ 0 := by
  rw [f_apply_three, f_partial_segbot]
  simp [solveVec, N, R, Matrix.mul_apply, Fin.sum_univ_two, Matrix.vecHead,
    Matrix.vecTail, entA, entB, entC, entD, segbot, Params.m, Params.ixx,
    Params.iyy, Params.izz]
  norm_num

lemma f_tau_r_entry3 : f segbot 0 0 0 0 0 0 1 3 0 ≠ 0 := by
  rw [f_apply_three, f_partial_segbot]
  simp [solveVec, N, R, Matrix.mul_apply, Fin.sum_univ_two, Matrix.vecHead,
    Matrix.vecTail, entA, entB, entC, entD, segbot, Params.m, Params.ixx,
    Params.iyy, Params.izz]
  norm_num

lemma f_theta_entry3 : f segbot 0 0 0 (Real.pi / 2) 0 0 0 3 0 ≠ 0 := by
  rw [f_apply_three, f_partial_segbot]
  simp [solveVec, N, R, Matrix.mul_apply, Fin.sum_univ_two, Matrix.vecHead,
    Matrix.vecTail, entA, entB, entC, entD, segbot, Params.m, Params.ixx,
    Params.iyy, Params.izz, Real.sin_pi_div_two, Real.cos_pi_div_two]
  norm_num

lemma f_phidot_entry1 : f segbot 0 0 1 (Real.pi / 2) 0 0 0 1 0 ≠ 0 := by
  rw [f_apply_one, f_partial_segbot]
  simp [solveVec, N, R, Matrix.mul_apply, Fin.sum_univ_two, Matrix.vecHead,
    Matrix.vecTail, entA, entB, entC, entD, segbot, Params.m, Params.ixx,
    Params.iyy, Params.izz, Real.sin_pi_div_two, Real.cos_pi_div_two]
  norm_num

lemma f_thetadot_entry1 : f segbot 0 0 0 (Real.pi / 2) 1 0 0 1 0 ≠ 0 := by
  rw [f_apply_one, f_partial_segbot]
  simp [solveVec, N, R, Matrix.mul_apply, Fin.sum_univ_two, Matrix.vecHead,
    Matrix.vecTail, entA, entB, entC, entD, segbot, Params.m, Params.ixx,
    Params.iyy, Params.izz, Real.sin_pi_div_two, Real.cos_pi_div_two]
  norm_num

lemma dependsOn_v : dependsOn "v" := by
  refine ⟨fun x => if x = "phi" then Real.pi / 2 else if x = "v" then 1 else 0,
    fun x => if x = "phi" then Real.pi / 2 else 0, fun x hx => by simp [hx], ?_⟩
  have h1 : fEval (fun x => if x = "phi" then Real.pi / 2 else if x = "v" then 1 else 0)
      = f segbot 1 (Real.pi / 2) 0 0 0 0 0 := rfl
  have h0 : fEval (fun x => if x = "phi" then Real.pi / 2 else 0)
      = f segbot 0 (Real.pi / 2) 0 0 0 0 0 := rfl
  rw [h1, h0]
  intro h
  have he := Matrix.ext_iff.mpr h 0 0
  rw [f_apply_zero, f_apply_zero] at he
  rw [Real.sin_pi_div_two] at he
  norm_num at he

lemma dependsOn_phi : dependsOn "phi" := by
  refine ⟨fun x => if x = "v" then 1 else 0,
    fun x => if x = "v" then 1 else if x = "phi" then Real.pi / 2 else 0,
    fun x hx => by simp [hx], ?_⟩
  have h1 : fEval (fun x => if x = "v" then 1 else 0)
      = f segbot 1 0 0 0 0 0 0 := rfl
  have h0 : fEval (fun x => if x = "v" then 1 else if x = "phi" then Real.pi / 2 else 0)
      = f segbot 1 (Real.pi / 2) 0 0 0 0 0 := rfl
  rw [h1, h0]
  intro h
  have he := Matrix.ext_iff.mpr h 0 0
  rw [f_apply_zero, f_apply_zero] at he
  rw [Real.sin_zero, Real.sin_pi_div_two] at he
  norm_num at he

lemma dependsOn_theta : dependsOn "theta" := by
  refine ⟨fun _ => 0, fun x => if x = "theta" then Real.pi / 2 else 0,
    fun x hx => by simp [hx], ?_⟩
  have h1 : fEval (fun _ => 0) = f segbot 0 0 0 0 0 0 0 := rfl
  have h0 : fEval (fun x => if x = "theta" then Real.pi / 2 else 0)
      = f segbot 0 0 0 (Real.pi / 2) 0 0 0 := rfl
  rw [h1, h0]
  intro h
  have he := Matrix.ext_iff.mpr h 3 0
  rw [f_rest3_zero] at he
  exact f_theta_entry3 he.symm

lemma dependsOn_phidot : dependsOn "phidot" := by
  refine ⟨fun x => if x = "theta" then Real.pi / 2 else 0,
    fun x => if x = "theta" then Real.pi / 2 else if x = "phidot" then 1 else 0,
    fun x hx => by simp [hx], ?_⟩
  have h1 : fEval (fun x => if x = "theta" then Real.pi / 2 else 0)
      = f segbot 0 0 0 (Real.pi / 2) 0 0 0 := rfl
  have h0 : fEval (fun x => if x = "theta" then Real.pi / 2 else if x = "phidot" then 1 else 0)
      = f segbot 0 0 1 (Real.pi / 2) 0 0 0 := rfl
  rw [h1, h0]
  intro h
  have he := Matrix.ext_iff.mpr h 1 0
  rw [f_pi2_entry1_zero] at he
  exact f_phidot_entry1 he.symm

lemma dependsOn_thetadot : dependsOn "thetadot" := by
  refine ⟨fun x => if x = "theta" then Real.pi / 2 else 0,
    fun x => if x = "theta" then Real.pi / 2 else if x = "thetadot" then 1 else 0,
    fun x hx => by simp [hx], ?_⟩
  have h1 : fEval (fun x => if x = "theta" then Real.pi / 2 else 0)
      = f segbot 0 0 0 (Real.pi / 2) 0 0 0 := rfl
  have h0 : fEval (fun x => if x = "theta" then Real.pi / 2 else if x = "thetadot" then 1 else 0)
      = f segbot 0 0 0 (Real.pi / 2) 1 0 0 := rfl
  rw [h1, h0]
  intro h
  have he := Matrix.ext_iff.mpr h 1 0
  rw [f_pi2_entry1_zero] at he
  exact f_thetadot_entry1 he.symm

lemma dependsOn_tau_l : dependsOn "tau_l" := by
  refine ⟨fun _ => 0, fun x => if x = "tau_l" then 1 else 0,
    fun x hx => by simp [hx], ?_⟩
  have h1 : fEval (fun _ => 0) = f segbot 0 0 0 0 0 0 0 := rfl
  have h0 : fEval (fun x => if x = "tau_l" then 1 else 0)
      = f segbot 0 0 0 0 0 1 0 := rfl
  rw [h1, h0]
  intro h
  have he := Matrix.ext_iff.mpr h 3 0
  rw [f_rest3_zero] at he
  exact f_tau_l_entry3 he.symm

lemma dependsOn_tau_r : dependsOn "tau_r" := by
  refine ⟨fun _ => 0, fun x => if x = "tau_r" then 1 else 0,
    fun x hx => by simp [hx], ?_⟩
  have h1 : fEval (fun _ => 0) = f segbot 0 0 0 0 0 0 0 := rfl
  have h0 : fEval (fun x => if x = "tau_r" then 1 else 0)
      = f segbot 0 0 0 0 0 0 1 := rfl
  rw [h1, h0]
  intro h
  have he := Matrix.ext_iff.mpr h 3 0
  rw [f_rest3_zero] at he
  exact f_tau_r_entry3 he.symm

/-- C2 counterexample: the declared symbol `e_lat` does NOT occur free in the
final expression `f`: any two assignments that differ only at `e_lat` give
`f` the same value, refuting the claim that each of the eight declared
symbols occurs free in `f`. -/
theorem e_lat_not_free_in_f : ¬ dependsOn "e_lat" := by
  rintro ⟨σ, σ', hagree, hne⟩
  exact hne (fEval_determined σ σ'
    (hagree "v" (by decide)) (hagree "phi" (by decide))
    (hagree "phidot" (by decide)) (hagree "theta" (by decide))
    (hagree "thetadot" (by decide)) (hagree "tau_l" (by decide))
    (hagree "tau_r" (by decide)))

/-- C2 (amended): the free symbols of the final expression `f` are exactly
the seven declared symbols `phi`, `phidot`, `v`, `theta`, `thetadot`,
`tau_l`, `tau_r`: `f` depends on each of these, and its value is determined
by the values of the eight declared symbols alone (indeed by these seven, so
no symbol outside the declared set occurs free; `e_lat` is the one declared
symbol that does not occur). -/
theorem free_symbols_of_f :
    dependsOn "phi" ∧ dependsOn "phidot" ∧ dependsOn "v" ∧
    dependsOn "theta" ∧ dependsOn "thetadot" ∧
    dependsOn "tau_l" ∧ dependsOn "tau_r" ∧
    (∀ σ σ' : String → ℝ,
      (∀ s ∈ coordNames ++ inputNames, σ s = σ' s) → fEval σ = fEval σ') :=
  ⟨dependsOn_phi, dependsOn_phidot, dependsOn_v, dependsOn_theta,
    dependsOn_thetadot, dependsOn_tau_l, dependsOn_tau_r,
    fun σ σ' h => fEval_determined σ σ'
      (h "v" (by decide)) (h "phi" (by decide)) (h "phidot" (by decide))
      (h "theta" (by decide)) (h "thetadot" (by decide))
      (h "tau_l" (by decide)) (h "tau_r" (by decide))⟩

/-- C7 counterexample: there is NO alternative value of `r_station` or
`v_station` for which rerunning the derivation yields a different final
expression `f` — the station parameters are defined but never used, refuting
the claim that they influence the derivation. -/
theorem station_params_cannot_change_f :
    ¬ ∃ rs vs : ℝ, f (stationAlt rs vs) ≠ f segbot := by
  rintro ⟨rs, vs, hne⟩
  exact hne rfl

/-- C7 (amended): the defined station parameters `r_station = 20.0` and
`v_station = -0.1` do not influence the derivation: for every alternative
value of `r_station` and `v_station`, rerunning the derivation yields the
same matrices `M`, `N`, `R` and the same final expression `f`. -/
theorem station_params_do_not_influence (rs vs : ℝ) :
    M (stationAlt rs vs) = M segbot ∧ N (stationAlt rs vs) = N segbot ∧
    R (stationAlt rs vs) = R segbot ∧ f (stationAlt rs vs) = f segbot :=
  ⟨rfl, rfl, rfl, rfl⟩

/-- C9: the derivation is deterministic: its outcome does not depend on any
ambient environment an evaluation could read (time, randomness, shared
state), so any two evaluations construct identical matrices `M`, `N`, `R`
and an identical final expression `f`. -/
theorem derivation_deterministic (w w' : ℕ → ℝ) :
    derivation w = derivation w' ∧ derivation w = (M, N, R, f) :=
  ⟨rfl, rfl⟩

/-- C10: the notebook declares exactly six generalized-coordinate symbols
(`e_lat`, `phi`, `phidot`, `v`, `theta`, `thetadot`) and two control-input
symbols (`tau_l`, `tau_r`); on each declaration line the `Symbol` name
string equals the Python variable name; the eight names are pairwise
distinct (so the Symbols are distinct); and the declaration cell contains no
other symbol declarations. -/
theorem symbol_declarations :
    symbolDecls.map Prod.fst = coordNames ++ inputNames ∧
    (∀ d ∈ symbolDecls, d.1 = d.2) ∧
    (symbolDecls.map Prod.snd).Nodup ∧
    coordNames.length = 6 ∧ inputNames.length = 2 := by
  decide

end Segbot
